import Mathlib

/-!
# Shallow embedding of `src/validator.js`

The repository is a single-class recursive schema validator.  This file embeds
its data model and algorithms in Lean:

* JavaScript runtime values are modelled by `JVal` (numbers are modelled as
  integers; `null` and `undefined` are separate constructors, since the source
  distinguishes them: `dataToValidate !== null` is true for `undefined`, and
  `Object.prototype.toString` dispatch has no handler for `undefined`).
* Schemas are modelled by the recursive structure `Schema`; a field that the
  source reads with `schema.x === undefined` semantics is an `Option`.
* The mutable validator instance (`this._errors`, `this._failed`) is modelled
  by explicit state passing of a `Session`; `isValid` is the session
  transformer of the source's `isValid`, and the source's boolean return value
  `!this._failed` is `isValidRet`.

Every definition is translated from the source; the one exception,
`specEqual`, is a second definition written from the specification's wording
of structural equality (spec section 4.5), used to compare the code against
the spec.
-/

/-- A JavaScript runtime value, as the validator sees it.  Numbers are
modelled as integers. -/
inductive JVal : Type where
  | num (n : Int)
  | bool (b : Bool)
  | str (s : String)
  | arr (xs : List JVal)
  | obj (fs : List (String × JVal))
  | null
  | undef

/-- JavaScript truthiness of a value (used by `required` via `obj[item]` and
by `schema.nullable`). `0`, `""`, `false`, `null` and `undefined` are falsy;
arrays and objects are always truthy. -/
def truthy : JVal → Bool
  | .num n => !(n == 0)
  | .bool b => b
  | .str s => !(s == "")
  | .arr _ => true
  | .obj _ => true
  | .null => false
  | .undef => false

/-- Source `isObject(obj)`: `obj != null && typeof obj === 'object'`.  True
exactly for arrays and objects (`undefined == null` is true in JS, so
`undefined` is excluded as well). -/
def isObject : JVal → Bool
  | .arr _ => true
  | .obj _ => true
  | _ => false

/-- JavaScript strict equality `===` restricted to the cases the source can
reach: primitives compare by value, `null === null` and
`undefined === undefined` hold, and any cross-kind comparison is false.
Two distinct object/array literals compare by reference; the source only ever
applies `===` when at most one side is an object (`compareValues` recurses
when both sides are objects), so that arm is modelled as `false`. -/
def jsStrictEq : JVal → JVal → Bool
  | .num a, .num b => a == b
  | .bool a, .bool b => a == b
  | .str a, .str b => a == b
  | .null, .null => true
  | .undef, .undef => true
  | _, _ => false

/-- The own enumerable keys of a value together with their values, in order:
`Object.keys` of an array yields the decimal index strings `"0"`, `"1"`, …,
and of an object its keys.  Non-objects have no keys. -/
def toKeyed : JVal → List (String × JVal)
  | .arr xs => xs.enum.map (fun p => (toString p.1, p.2))
  | .obj fs => fs
  | _ => []

/-- JavaScript property read `o[k]` over a keyed list, defaulting to the given
value (`undefined` at every call site) when the key is absent. -/
def lookupD (l : List (String × JVal)) (k : String) (d : JVal) : JVal :=
  match l.find? (fun p => p.1 == k) with
  | some p => p.2
  | none => d

theorem lookupD_cases (l : List (String × JVal)) (k : String) (d : JVal) :
    lookupD l k d = d ∨ ∃ p ∈ l, p.2 = lookupD l k d := by
  unfold lookupD
  cases h : l.find? (fun p => p.1 == k) with
  | none => left; rfl
  | some p => right; exact ⟨p, List.mem_of_find?_eq_some h, rfl⟩

theorem sizeOf_snd_lt_of_mem_toKeyed (a : JVal) (p : String × JVal)
    (h : p ∈ toKeyed a) : sizeOf p.2 < sizeOf a := by
  cases a with
  | arr xs =>
    simp only [toKeyed, List.mem_map] at h
    obtain ⟨q, hq, hpq⟩ := h
    have hmem : q.2 ∈ xs := by
      have h2 := List.mem_enum_iff_getElem?.mp hq
      exact List.getElem?_mem h2
    have h3 : sizeOf q.2 < sizeOf xs := List.sizeOf_lt_of_mem hmem
    have h4 : p.2 = q.2 := by rw [← hpq]
    rw [h4]; simp; try omega
  | obj fs =>
    simp only [toKeyed] at h
    have h1 : sizeOf p < sizeOf fs := List.sizeOf_lt_of_mem h
    have h2 : sizeOf p.2 < sizeOf p := by cases p with | mk k v => simp
    simp; omega
  | num n => simp [toKeyed] at h
  | bool b => simp [toKeyed] at h
  | str s => simp [toKeyed] at h
  | null => simp [toKeyed] at h
  | undef => simp [toKeyed] at h

theorem sizeOf_lookupD_lt (a : JVal) (k : String)
    (h : isObject (lookupD (toKeyed a) k .undef) = true) :
    sizeOf (lookupD (toKeyed a) k .undef) < sizeOf a := by
  rcases lookupD_cases (toKeyed a) k .undef with h1 | ⟨p, hp, hpe⟩
  · rw [h1] at h; simp [isObject] at h
  · rw [← hpe]; exact sizeOf_snd_lt_of_mem_toKeyed a p hp

mutual

/-- Source `compareValues(a, b)`: deep equality by value.  When both sides are
objects/arrays it compares the number of own keys and then walks the keys of
`a` (`cmpKeys`); otherwise it falls back to strict equality `a === b`. -/
def compareValues (a b : JVal) : Bool :=
  if isObject a && isObject b then
    (toKeyed a).length == (toKeyed b).length && cmpKeys a b ((toKeyed a).map Prod.fst)
  else
    jsStrictEq a b
termination_by (sizeOf a + sizeOf b, (toKeyed a).length + 1)

/-- The `for (const key of aKeys)` loop of `compareValues`: for each key, if
both looked-up values are objects recurse, otherwise compare them with `===`;
any failure short-circuits to `false`. -/
def cmpKeys (a b : JVal) : List String → Bool
  | [] => true
  | k :: rest =>
    let aVal := lookupD (toKeyed a) k .undef
    let bVal := lookupD (toKeyed b) k .undef
    (if h : isObject aVal && isObject bVal then compareValues aVal bVal
     else jsStrictEq aVal bVal)
      && cmpKeys a b rest
termination_by keys => (sizeOf a + sizeOf b, keys.length)
decreasing_by
  · simp only [Bool.and_eq_true] at h
    have ha := sizeOf_lookupD_lt a k h.1
    have hb := sizeOf_lookupD_lt b k h.2
    simp_wf
    omega
  · simp_wf
    exact Prod.Lex.right _ (by omega)

end

/-- Source `isUniqueArray(arr)`: the two nested index loops; `false` iff some
pair of distinct indices holds `compareValues`-equal elements. -/
def isUniqueArray (arr : List JVal) : Bool :=
  (List.range arr.length).all fun i =>
    (List.range arr.length).all fun j =>
      !(!(i == j) && compareValues (arr.getD i .undef) (arr.getD j .undef))

/-- The names of the two string formats registered in `this._string_patterns`.
The source's table has exactly the keys `'email'` and `'date'`; a schema
naming any other format would make the source throw (`undefined` is not a
function), which is outside the modelled state space. -/
inductive Fmt : Type where
  | email
  | date
deriving DecidableEq

/-- Ten characters of the shape four digits, `-`, two digits, `-`, two
digits — one full match of `\d{4}-\d{2}-\d{2}`. -/
def dateShape : List Char → Bool
  | [y1, y2, y3, y4, h1, m1, m2, h2, d1, d2] =>
    y1.isDigit && y2.isDigit && y3.isDigit && y4.isDigit && h1 == '-' &&
      m1.isDigit && m2.isDigit && h2 == '-' && d1.isDigit && d2.isDigit
  | _ => false

/-- The source's date test `/\d{4}-\d{2}-\d{2}$/.test(str)`: the regular
expression is anchored at the end but not at the start, so it succeeds iff
SOME suffix of the string is a full `\d{4}-\d{2}-\d{2}` match. -/
def dateTest : List Char → Bool
  | [] => dateShape []
  | c :: rest => dateShape (c :: rest) || dateTest rest

/-- Source `this._string_patterns`: `email` is `str => str.includes('@')`;
`date` is `str => /\d{4}-\d{2}-\d{2}$/.test(str)`. -/
def stringPatterns : Fmt → String → Bool
  | .email => fun str => str.contains '@'
  | .date => fun str => dateTest str.data

/-- Sanity check from spec section 8: the array `[1,[2,3]]` is structurally
equal to itself. -/
theorem compareValues_nested_array_refl :
    compareValues (.arr [.num 1, .arr [.num 2, .num 3]])
      (.arr [.num 1, .arr [.num 2, .num 3]]) = true := by
  simp [compareValues, cmpKeys, toKeyed, lookupD, isObject, jsStrictEq,
    List.enum, List.enumFrom, List.find?,
    show toString (0 : Nat) = "0" from rfl, show toString (1 : Nat) = "1" from rfl]

/-- Sanity check from spec section 8: `{a:1,b:{c:2}}` is not structurally
equal to `{a:1,b:{c:3}}`. -/
theorem compareValues_nested_obj_ne :
    compareValues (.obj [("a", .num 1), ("b", .obj [("c", .num 2)])])
      (.obj [("a", .num 1), ("b", .obj [("c", .num 3)])]) = false := by
  simp [compareValues, cmpKeys, toKeyed, lookupD, isObject, jsStrictEq,
    List.find?]

/-- A schema tree, one field per property the source reads.  A field that the
source guards with `testProperty`'s `prop !== undefined` check (or reads and
branches on) is an `Option`; `nullable` and `additionalProperties` are only
ever used for their truthiness, so they are plain `Bool`s.  `pattern` is
modelled as the regular expression's test function; `items` is either a
single schema (the source detects this shape by the truthiness of `.type` on
the items object — constructor `Sum.inl` models an items value whose `type`
field is truthy) or a keyed collection of alternative schemas (`Sum.inr`). -/
structure Schema where
  type : Option String
  nullable : Bool
  anyOf : Option (List Schema)
  oneOf : Option (List Schema)
  minimum : Option Int
  maximum : Option Int
  enum : Option (List JVal)
  minLength : Option Int
  maxLength : Option Int
  pattern : Option (String → Bool)
  format : Option Fmt
  minItems : Option Int
  maxItems : Option Int
  uniqueItems : Option Bool
  contains : Option JVal
  items : Option (Schema ⊕ List (String × Schema))
  minProperties : Option Int
  maxProperties : Option Int
  required : Option (List String)
  properties : Option (List (String × Schema))
  additionalProperties : Bool

/-- The validation session of one `Validator` instance: the mutable state
`this._errors` / `this._failed` set up by the constructor and mutated through
`pushError` and `fail`. -/
structure Session where
  errors : List String
  failed : Bool

/-- Source `pushError(err)`. -/
def pushError (s : Session) (err : String) : Session :=
  ⟨s.errors ++ [err], s.failed⟩

/-- Source `fail(withErr)`: pushes the message when one is given (every call
site passes either a non-empty string literal or, for the `items` check, no
argument at all) and sets the failure flag. -/
def fail (s : Session) (withErr : Option String) : Session :=
  match withErr with
  | some err => ⟨(pushError s err).errors, true⟩
  | none => ⟨s.errors, true⟩

/-- Source `this._known_types`. -/
def knownTypes : List String := ["number", "boolean", "string", "array", "object"]

/-- Source check `this._known_types.includes(schema.type)`;
`includes(undefined)` is false. -/
def knownType : Option String → Bool
  | some t => knownTypes.contains t
  | none => false

/-- Source `testProperty(prop, predicate, err)`: if the property is defined
and the (pure) predicate rejects it, fail with the given message. -/
def testProperty {α : Type} (prop : Option α) (predicate : α → Bool)
    (err : Option String) (s : Session) : Session :=
  match prop with
  | none => s
  | some p => if predicate p then s else fail s err

/-- Source `isValidType(given, expected)`: `given !== expected` fails with
"Type is incorrect" (a missing `type` field never equals a type name). -/
def isValidType (given : Option String) (expected : String) (s : Session) : Session :=
  if given == some expected then s else fail s (some "Type is incorrect")

/-- Source `isValidNumber(schema, number)`. -/
def isValidNumber (schema : Schema) (number : Int) (s : Session) : Session :=
  let s1 := isValidType schema.type "number" s
  let s2 := testProperty schema.minimum (fun p => decide (p ≤ number))
    (some "Value is less than it can be") s1
  let s3 := testProperty schema.maximum (fun p => decide (number ≤ p))
    (some "Value is greater than it can be") s2
  testProperty schema.enum (fun p => p.any (fun x => jsStrictEq x (.num number)))
    (some "The enum does not support value") s3

/-- Source `isValidString(schema, str)`. -/
def isValidString (schema : Schema) (str : String) (s : Session) : Session :=
  let s1 := isValidType schema.type "string" s
  let s2 := testProperty schema.minLength (fun p => decide (p ≤ (str.length : Int)))
    (some "Too short string") s1
  let s3 := testProperty schema.maxLength (fun p => decide ((str.length : Int) ≤ p))
    (some "Too long string") s2
  let s4 := testProperty schema.pattern (fun p => p str)
    (some "String does not match pattern") s3
  let s5 := testProperty schema.enum (fun p => p.any (fun x => jsStrictEq x (.str str)))
    (some "The enum does not support value") s4
  testProperty schema.format (fun p => stringPatterns p str)
    (some "Format of string is not valid") s5

/-- Source `isValidBoolean(schema, bool)`: the type check only. -/
def isValidBoolean (schema : Schema) (_bool : Bool) (s : Session) : Session :=
  isValidType schema.type "boolean" s

/-- Source expression `schema.anyOf || schema.oneOf` — any present array
(even an empty one) is truthy in JS, so `anyOf` wins whenever it is
defined. -/
def variantsOf (schema : Schema) : Option (List Schema) :=
  match schema.anyOf with
  | some l => some l
  | none => schema.oneOf

/-- The session-independent constraint checks of `isValidArray` (source lines
113-118): the `type` assertion and the `minItems` / `maxItems` / `contains` /
`enum` / `uniqueItems` `testProperty` calls, in source order.  Note that the
`uniqueItems` check runs whenever the field is DEFINED (`testProperty` only
tests `prop !== undefined`), regardless of its boolean value, and its
predicate `p => this.isUniqueArray(arr)` ignores `p`. -/
def arrayChecks (schema : Schema) (arr : List JVal) (s : Session) : Session :=
  let s1 := isValidType schema.type "array" s
  let s2 := testProperty schema.minItems (fun p => decide (p ≤ (arr.length : Int)))
    (some "Items count less than can be") s1
  let s3 := testProperty schema.maxItems (fun p => decide ((arr.length : Int) ≤ p))
    (some "Items count more than can be") s2
  let s4 := testProperty schema.contains
    (fun p => arr.any (fun item => compareValues item p))
    (some "Must contain a value, but does not") s3
  let s5 := testProperty schema.enum
    (fun p => p.any (fun value => compareValues value (.arr arr)))
    (some "The enum does not support one of array elements") s4
  testProperty schema.uniqueItems (fun _ => isUniqueArray arr)
    (some "Elements of array not unique") s5

/-- The session-independent constraint checks of `isValidObject` (source lines
131-134): the `type` assertion and the `minProperties` / `maxProperties` /
`required` `testProperty` calls, in source order.  The `required` predicate is
`p => p.every(item => obj[item])`: every listed key must be present with a
TRUTHY value. -/
def objectChecks (schema : Schema) (obj : List (String × JVal)) (s : Session) : Session :=
  let s1 := isValidType schema.type "object" s
  let s2 := testProperty schema.minProperties (fun p => decide (p ≤ (obj.length : Int)))
    (some "Too few properties in object") s1
  let s3 := testProperty schema.maxProperties (fun p => decide ((obj.length : Int) ≤ p))
    (some "Too many properties in object") s2
  testProperty schema.required
    (fun p => p.all (fun item => truthy (lookupD obj item .undef)))
    (some "Property required, but value is undefined") s3

theorem sizeOf_variantsOf (schema : Schema) (l : List Schema)
    (h : variantsOf schema = some l) : sizeOf l < sizeOf schema := by
  cases schema with
  | mk t nu ao oo mi ma en mnl mxl pa fo mni mxi ui co it mnp mxp re pr ap =>
    unfold variantsOf at h
    cases ao with
    | some l2 => simp at h; subst h; simp; omega
    | none => simp at h; subst h; simp; omega

theorem sizeOf_items_single (schema : Schema) (p : Schema)
    (h : schema.items = some (.inl p)) : sizeOf p < sizeOf schema := by
  cases schema with
  | mk t nu ao oo mi ma en mnl mxl pa fo mni mxi ui co it mnp mxp re pr ap =>
    simp at h; subst h; simp; omega

theorem sizeOf_items_alts (schema : Schema) (alts : List (String × Schema))
    (h : schema.items = some (.inr alts)) : sizeOf alts < sizeOf schema := by
  cases schema with
  | mk t nu ao oo mi ma en mnl mxl pa fo mni mxi ui co it mnp mxp re pr ap =>
    simp at h; subst h; simp; omega

theorem sizeOf_properties (schema : Schema) (props : List (String × Schema))
    (h : schema.properties = some props) : sizeOf props < sizeOf schema := by
  cases schema with
  | mk t nu ao oo mi ma en mnl mxl pa fo mni mxi ui co it mnp mxp re pr ap =>
    simp at h; subst h; simp; omega

mutual

/-- Source `isValid(schema, dataToValidate)` as a session transformer.  Its
boolean return value `!this._failed` is `isValidRet` below.  Combinators are
handled first (`schema.anyOf || schema.oneOf`); then non-null values dispatch
on their runtime kind (there is a handler for exactly the five kinds, and
`undefined` has none); a null value is checked against `schema.nullable`. -/
def isValid (schema : Schema) (d : JVal) (s : Session) : Session :=
  match h : variantsOf schema with
  | some variants =>
    if (filterSchemas variants d).length == 0 then fail s (some "None schemas are valid")
    else if schema.oneOf.isSome then
      (if !((filterSchemas variants d).length == 1) then
        fail s (some "More than one shema valid for this data")
      else s)
    else s
  | none => dispatch schema d s
termination_by (sizeOf schema, 6, 0)
decreasing_by
  · exact Prod.Lex.left _ _ (sizeOf_variantsOf schema variants h)
  · exact Prod.Lex.right _ (Prod.Lex.left _ _ (by omega))

/-- The non-combinator part of `isValid`: a null value is checked against
`schema.nullable`; any other value dispatches on its runtime kind through
`this._handlers` (registered for exactly the five known kinds, so `undefined`
has no handler), guarded by `this._known_types.includes(schema.type)`. -/
def dispatch (schema : Schema) (d : JVal) (s : Session) : Session :=
  match d with
  | .null => if !schema.nullable then fail s (some "Value is null, but nullable false") else s
  | .undef => fail s (some "Unknown type")
  | .num n =>
      if knownType schema.type then isValidNumber schema n s
      else fail s (some "Unknown type")
  | .bool b =>
      if knownType schema.type then isValidBoolean schema b s
      else fail s (some "Unknown type")
  | .str st =>
      if knownType schema.type then isValidString schema st s
      else fail s (some "Unknown type")
  | .arr xs =>
      if knownType schema.type then isValidArray schema xs s
      else fail s (some "Unknown type")
  | .obj fs =>
      if knownType schema.type then isValidObject schema fs s
      else fail s (some "Unknown type")
termination_by (sizeOf schema, 5, 0)
decreasing_by
  · exact Prod.Lex.right _ (Prod.Lex.left _ _ (by omega))
  · exact Prod.Lex.right _ (Prod.Lex.left _ _ (by omega))

/-- Source `isValidArray(schema, arr)`.  The `items` check is the source's
`testProperty(schema.items, p => {...})` call: the impure predicate runs
first (`this.isValid` for the single-schema shape, fresh validators for the
alternatives shape), and if it returns false the session fails WITHOUT a
message (the call site passes no error argument). -/
def isValidArray (schema : Schema) (arr : List JVal) (s : Session) : Session :=
  match h2 : schema.items with
  | none => arrayChecks schema arr s
  | some (.inl p) =>
      let r := everyItems p arr (arrayChecks schema arr s)
      if r.2 then r.1 else fail r.1 none
  | some (.inr alts) =>
      if everyAltItems alts arr then arrayChecks schema arr s
      else fail (arrayChecks schema arr s) none
termination_by (sizeOf schema, 4, 0)
decreasing_by
  · exact Prod.Lex.left _ _ (sizeOf_items_single schema p h2)
  · exact Prod.Lex.left _ _ (sizeOf_items_alts schema alts h2)

/-- The `arr.every(item => this.isValid(p, item))` loop of the single-schema
`items` shape: the recursive calls run on THIS validator's session, and the
loop stops at the first item for which `isValid` returns false (that is, at
the first item after which the shared session is failed). -/
def everyItems (p : Schema) (l : List JVal) (s : Session) : Session × Bool :=
  match l with
  | [] => (s, true)
  | item :: rest =>
      let s1 := isValid p item s
      if s1.failed then (s1, false) else everyItems p rest s1
termination_by (sizeOf p, 7, l.length)
decreasing_by
  · exact Prod.Lex.right _ (Prod.Lex.left _ _ (by omega))
  · exact Prod.Lex.right _ (Prod.Lex.right _ (by simp; try omega))

/-- The `Object.keys(p).some(scheme => new Validator().isValid(p[scheme],
item))` loop of the alternatives `items` shape: each alternative is tried on
a fresh validator (fresh session). -/
def someAlt (alts : List (String × Schema)) (item : JVal) : Bool :=
  match alts with
  | [] => false
  | (_, sk) :: rest =>
      !(isValid sk item ⟨[], false⟩).failed || someAlt rest item
termination_by (sizeOf alts, 6, 0)
decreasing_by
  · exact Prod.Lex.left _ _ (by simp; try omega)
  · exact Prod.Lex.left _ _ (by simp; try omega)

/-- The outer `arr.every(item => ...)` loop of the alternatives `items`
shape; pure, since every alternative runs on a fresh validator. -/
def everyAltItems (alts : List (String × Schema)) (l : List JVal) : Bool :=
  match l with
  | [] => true
  | item :: rest => someAlt alts item && everyAltItems alts rest
termination_by (sizeOf alts, 7, l.length)
decreasing_by
  · exact Prod.Lex.right _ (Prod.Lex.left _ _ (by omega))
  · exact Prod.Lex.right _ (Prod.Lex.right _ (by simp; try omega))

/-- Source `isValidObject(schema, obj)`.  The `properties` check is the
source's `testProperty(schema.properties, properties => {...}, 'Type is
incorrect')` call: the impure predicate walks the declared properties with
`this.isValid` on THIS session (`everyProps`); if all pass but additional
properties are forbidden and the key counts differ, it fails once inside the
predicate and once more through `testProperty`'s error. -/
def isValidObject (schema : Schema) (obj : List (String × JVal)) (s : Session) : Session :=
  match h2 : schema.properties with
  | none => objectChecks schema obj s
  | some props =>
      let r := everyProps obj props (objectChecks schema obj s)
      if r.2 then
        (if schema.additionalProperties || props.length == obj.length then r.1
         else fail (fail r.1 (some "An object cant have additional properties"))
           (some "Type is incorrect"))
      else fail r.1 (some "Type is incorrect")
termination_by (sizeOf schema, 4, 0)
decreasing_by
  exact Prod.Lex.left _ _ (sizeOf_properties schema props h2)

/-- The `schemes.every(propName => this.isValid(properties[propName],
obj[propName]))` loop: each declared property's value (or `undefined` when
the object lacks the key) is validated with `this.isValid` on THIS session;
the loop stops at the first property for which `isValid` returns false. -/
def everyProps (obj : List (String × JVal)) (props : List (String × Schema))
    (s : Session) : Session × Bool :=
  match props with
  | [] => (s, true)
  | (k, sk) :: rest =>
      let s1 := isValid sk (lookupD obj k .undef) s
      if s1.failed then (s1, false) else everyProps obj rest s1
termination_by (sizeOf props, 6, 0)
decreasing_by
  · exact Prod.Lex.left _ _ (by simp; try omega)
  · exact Prod.Lex.left _ _ (by simp; try omega)

/-- Source `filterSchemas(schemas, data)`: keep the schemas a fresh validator
accepts (`new Validator().isValid(s, data)`). -/
def filterSchemas (schemas : List Schema) (d : JVal) : List Schema :=
  match schemas with
  | [] => []
  | sc :: rest =>
      if !(isValid sc d ⟨[], false⟩).failed then sc :: filterSchemas rest d
      else filterSchemas rest d
termination_by (sizeOf schemas, 6, 0)
decreasing_by
  · exact Prod.Lex.left _ _ (by simp; try omega)
  · exact Prod.Lex.left _ _ (by simp; try omega)
  · exact Prod.Lex.left _ _ (by simp; try omega)

end

/-- The boolean the source's `isValid` returns: `!this._failed` after the
session transformer has run. -/
def isValidRet (schema : Schema) (d : JVal) (s : Session) : Bool :=
  !(isValid schema d s).failed

/-- The session `new Validator()` starts with: `this._errors = []`,
`this._failed = false`. -/
def freshSession : Session := ⟨[], false⟩

/-- Modelled from the spec: the `validate(schema, value) -> {ok, errors}`
entry point of spec section 6.  The repository itself exposes only the
`Validator` class, so the caller-facing wrapper is modelled from the spec's
words: run `isValid` on a freshly constructed validator and return its
boolean verdict together with the session's accumulated errors. -/
def validate (schema : Schema) (d : JVal) : Bool × List String :=
  let s := isValid schema d freshSession
  (!s.failed, s.errors)

/-! ## Session locality

The mutable validator state is only ever changed by `fail`: errors are
appended, never read, and the failure flag is read only through
`!this._failed`.  Consequently every session transformer of the validator is
"local": its output errors are the input errors followed by a list that
depends only on the input FLAG, and its output flag likewise depends only on
the input flag.  This is the key invariant behind the spec's idempotence
claim: a freshly constructed validator always starts from `⟨[], false⟩`, so
the outcome of `validate` is a function of the schema and the value alone. -/

def SessionLocal (t : Session → Session) : Prop :=
  ∀ e f, t ⟨e, f⟩ = ⟨e ++ (t ⟨[], f⟩).errors, (t ⟨[], f⟩).failed⟩

def SessionLocalP (t : Session → Session × Bool) : Prop :=
  ∀ e f, t ⟨e, f⟩ =
    (⟨e ++ (t ⟨[], f⟩).1.errors, (t ⟨[], f⟩).1.failed⟩, (t ⟨[], f⟩).2)

theorem fail_eq (e : List String) (f : Bool) (w : Option String) :
    fail ⟨e, f⟩ w = ⟨e ++ w.toList, true⟩ := by
  cases w <;> simp [fail, pushError, Option.toList]

theorem sessionLocal_id : SessionLocal (fun s => s) := by
  intro e f; simp

theorem sessionLocal_fail (w : Option String) :
    SessionLocal (fun s => fail s w) := by
  intro e f; simp [fail_eq]

theorem sessionLocal_fail_comp (w : Option String) {t : Session → Session}
    (ht : SessionLocal t) : SessionLocal (fun s => fail (t s) w) := by
  intro e f
  dsimp only
  rcases hs : t ⟨[], f⟩ with ⟨E, F⟩
  rw [ht e f, hs]
  simp [fail_eq]

theorem sessionLocal_branch (c : Bool) {t1 t2 : Session → Session}
    (h1 : SessionLocal t1) (h2 : SessionLocal t2) :
    SessionLocal (fun s => if c then t1 s else t2 s) := by
  cases c
  · simpa using h2
  · simpa using h1

theorem sessionLocal_testProperty_comp {α : Type} (prop : Option α)
    (pred : α → Bool) (err : Option String) {t : Session → Session}
    (ht : SessionLocal t) :
    SessionLocal (fun s => testProperty prop pred err (t s)) := by
  intro e f
  dsimp only
  rcases hs : t ⟨[], f⟩ with ⟨E, F⟩
  rw [ht e f, hs]
  cases prop with
  | none => simp [testProperty]
  | some p =>
    cases hp : pred p <;> simp [testProperty, hp, fail_eq]

theorem sessionLocal_isValidType_comp (given : Option String) (expected : String)
    {t : Session → Session} (ht : SessionLocal t) :
    SessionLocal (fun s => isValidType given expected (t s)) := by
  intro e f
  dsimp only
  rcases hs : t ⟨[], f⟩ with ⟨E, F⟩
  rw [ht e f, hs]
  cases hg : given == some expected <;> simp [isValidType, hg, fail_eq]

theorem sessionLocal_isValidNumber (schema : Schema) (n : Int) :
    SessionLocal (isValidNumber schema n) :=
  sessionLocal_testProperty_comp _ _ _
    (sessionLocal_testProperty_comp _ _ _
      (sessionLocal_testProperty_comp _ _ _
        (sessionLocal_isValidType_comp _ _ sessionLocal_id)))

theorem sessionLocal_isValidString (schema : Schema) (st : String) :
    SessionLocal (isValidString schema st) :=
  sessionLocal_testProperty_comp _ _ _
    (sessionLocal_testProperty_comp _ _ _
      (sessionLocal_testProperty_comp _ _ _
        (sessionLocal_testProperty_comp _ _ _
          (sessionLocal_testProperty_comp _ _ _
            (sessionLocal_isValidType_comp _ _ sessionLocal_id)))))

theorem sessionLocal_isValidBoolean (schema : Schema) (b : Bool) :
    SessionLocal (isValidBoolean schema b) :=
  sessionLocal_isValidType_comp _ _ sessionLocal_id

theorem sessionLocal_arrayChecks (schema : Schema) (arr : List JVal) :
    SessionLocal (arrayChecks schema arr) :=
  sessionLocal_testProperty_comp _ _ _
    (sessionLocal_testProperty_comp _ _ _
      (sessionLocal_testProperty_comp _ _ _
        (sessionLocal_testProperty_comp _ _ _
          (sessionLocal_testProperty_comp _ _ _
            (sessionLocal_isValidType_comp _ _ sessionLocal_id)))))

theorem sessionLocal_objectChecks (schema : Schema) (obj : List (String × JVal)) :
    SessionLocal (objectChecks schema obj) :=
  sessionLocal_testProperty_comp _ _ _
    (sessionLocal_testProperty_comp _ _ _
      (sessionLocal_testProperty_comp _ _ _
        (sessionLocal_isValidType_comp _ _ sessionLocal_id)))

theorem sessionLocalP_everyItems (p : Schema)
    (IH : ∀ item, SessionLocal (isValid p item)) :
    ∀ l, SessionLocalP (everyItems p l) := by
  intro l
  induction l with
  | nil => intro e f; simp [everyItems]
  | cons item rest ih =>
    intro e f
    simp only [everyItems]
    rcases hs : isValid p item ⟨[], f⟩ with ⟨E1, F1⟩
    rw [IH item e f, hs]
    dsimp only
    cases F1 with
    | true => simp
    | false =>
      simp only [Bool.false_eq_true, if_false]
      rw [ih (e ++ E1) false, ih E1 false]
      simp

theorem sessionLocalP_everyProps (obj : List (String × JVal))
    (props : List (String × Schema))
    (IH : ∀ kv, kv ∈ props → ∀ d, SessionLocal (isValid kv.2 d)) :
    SessionLocalP (everyProps obj props) := by
  induction props with
  | nil => intro e f; simp [everyProps]
  | cons kv rest ih =>
    intro e f
    rcases kv with ⟨k, sk⟩
    simp only [everyProps]
    rcases hs : isValid sk (lookupD obj k .undef) ⟨[], f⟩ with ⟨E1, F1⟩
    rw [IH (k, sk) (by simp) (lookupD obj k .undef) e f, hs]
    dsimp only
    cases F1 with
    | true => simp
    | false =>
      simp only [Bool.false_eq_true, if_false]
      have ih2 := ih (fun kv hkv d => IH kv (by simp [hkv]) d)
      rw [ih2 (e ++ E1) false, ih2 E1 false]
      simp

theorem sessionLocal_postP (L : Session → Session × Bool) (A B : Session → Session)
    (hL : SessionLocalP L) (hA : SessionLocal A) (hB : SessionLocal B) :
    SessionLocal (fun s => if (L s).2 then A (L s).1 else B (L s).1) := by
  intro e f
  dsimp only
  rcases hs : L ⟨[], f⟩ with ⟨⟨EL, FL⟩, b⟩
  rw [hL e f, hs]
  dsimp only
  cases b with
  | true =>
    simp only [if_true]
    rcases hA2 : A ⟨[], FL⟩ with ⟨EA, FA⟩
    rw [hA (e ++ EL) FL, hA EL FL, hA2]
    simp
  | false =>
    simp only [Bool.false_eq_true, if_false]
    rcases hB2 : B ⟨[], FL⟩ with ⟨EB, FB⟩
    rw [hB (e ++ EL) FL, hB EL FL, hB2]
    simp

theorem sessionLocalP_comp (t : Session → Session) (L : Session → Session × Bool)
    (ht : SessionLocal t) (hL : SessionLocalP L) :
    SessionLocalP (fun s => L (t s)) := by
  intro e f
  dsimp only
  rcases hs : t ⟨[], f⟩ with ⟨E1, F1⟩
  rw [ht e f, hs]
  rw [hL (e ++ E1) F1, hL E1 F1]
  simp

theorem sessionLocal_isValidArray (schema : Schema) (xs : List JVal)
    (IH : ∀ p, schema.items = some (.inl p) → ∀ item, SessionLocal (isValid p item)) :
    SessionLocal (isValidArray schema xs) := by
  intro e f
  simp only [isValidArray]
  cases hit : schema.items with
  | none => exact sessionLocal_arrayChecks schema xs e f
  | some it =>
    cases it with
    | inl p =>
      exact sessionLocal_postP _ _ _
        (sessionLocalP_comp _ _ (sessionLocal_arrayChecks schema xs)
          (sessionLocalP_everyItems p (IH p hit) xs))
        sessionLocal_id (sessionLocal_fail none) e f
    | inr alts =>
      exact sessionLocal_branch (everyAltItems alts xs)
        (sessionLocal_arrayChecks schema xs)
        (sessionLocal_fail_comp none (sessionLocal_arrayChecks schema xs)) e f

theorem sessionLocal_isValidObject (schema : Schema) (obj : List (String × JVal))
    (IH : ∀ props kv, schema.properties = some props → kv ∈ props →
      ∀ v, SessionLocal (isValid kv.2 v)) :
    SessionLocal (isValidObject schema obj) := by
  intro e f
  simp only [isValidObject]
  cases hit : schema.properties with
  | none => exact sessionLocal_objectChecks schema obj e f
  | some props =>
    exact sessionLocal_postP _ _ _
      (sessionLocalP_comp _ _ (sessionLocal_objectChecks schema obj)
        (sessionLocalP_everyProps obj props (fun kv hkv v => IH props kv hit hkv v)))
      (sessionLocal_branch (schema.additionalProperties || (props.length == obj.length))
        sessionLocal_id
        (sessionLocal_fail_comp (some "Type is incorrect")
          (sessionLocal_fail (some "An object cant have additional properties"))))
      (sessionLocal_fail (some "Type is incorrect")) e f

theorem sessionLocal_dispatch (schema : Schema) (d : JVal)
    (IHa : ∀ p, schema.items = some (.inl p) → ∀ item, SessionLocal (isValid p item))
    (IHo : ∀ props kv, schema.properties = some props → kv ∈ props →
      ∀ v, SessionLocal (isValid kv.2 v)) :
    SessionLocal (dispatch schema d) := by
  intro e f
  cases d with
  | null =>
    simp only [dispatch]
    exact sessionLocal_branch _ (sessionLocal_fail _) sessionLocal_id e f
  | undef =>
    simp only [dispatch]
    exact sessionLocal_fail _ e f
  | num n =>
    simp only [dispatch]
    exact sessionLocal_branch _ (sessionLocal_isValidNumber schema n)
      (sessionLocal_fail _) e f
  | bool b =>
    simp only [dispatch]
    exact sessionLocal_branch _ (sessionLocal_isValidBoolean schema b)
      (sessionLocal_fail _) e f
  | str st =>
    simp only [dispatch]
    exact sessionLocal_branch _ (sessionLocal_isValidString schema st)
      (sessionLocal_fail _) e f
  | arr xs =>
    simp only [dispatch]
    exact sessionLocal_branch _ (sessionLocal_isValidArray schema xs IHa)
      (sessionLocal_fail _) e f
  | obj fs =>
    simp only [dispatch]
    exact sessionLocal_branch _ (sessionLocal_isValidObject schema fs IHo)
      (sessionLocal_fail _) e f

theorem sizeOf_schema_pos (schema : Schema) : 0 < sizeOf schema := by
  cases schema with
  | mk t nu ao oo mi ma en mnl mxl pa fo mni mxi ui co it mnp mxp re pr ap =>
    simp

theorem sizeOf_properties_mem (schema : Schema) (props : List (String × Schema))
    (kv : String × Schema) (h : schema.properties = some props) (hm : kv ∈ props) :
    sizeOf kv.2 < sizeOf schema := by
  have h1 : sizeOf kv < sizeOf props := List.sizeOf_lt_of_mem hm
  have h2 : sizeOf kv.2 < sizeOf kv := by cases kv with | mk k v => simp
  have h3 := sizeOf_properties schema props h
  omega

/-- Session locality of the whole validator: running `isValid` on any session
appends a list of errors that depends only on the incoming failure flag, and
produces a failure flag that likewise depends only on the incoming flag; the
incoming error list is never read. -/
theorem isValid_sessionLocal (schema : Schema) (d : JVal) :
    SessionLocal (isValid schema d) := by
  have main : ∀ (n : Nat) (sc : Schema), sizeOf sc ≤ n → ∀ v, SessionLocal (isValid sc v) := by
    intro n
    induction n with
    | zero =>
      intro sc h
      exact absurd h (by have := sizeOf_schema_pos sc; omega)
    | succ n ih =>
      intro sc hsz v e f
      simp only [isValid]
      cases hv : variantsOf sc with
      | some variants =>
        exact sessionLocal_branch _ (sessionLocal_fail _)
          (sessionLocal_branch _
            (sessionLocal_branch _ (sessionLocal_fail _) sessionLocal_id)
            sessionLocal_id) e f
      | none =>
        refine sessionLocal_dispatch sc v ?_ ?_ e f
        · intro p hp item
          have hlt := sizeOf_items_single sc p hp
          exact ih p (by omega) item
        · intro props kv hp hm w
          have hlt := sizeOf_properties_mem sc props kv hp hm
          exact ih kv.2 (by omega) w
  exact main (sizeOf schema) schema (le_refl _) d

/-- The function `filterSchemas` is `List.filter` by fresh-validator
acceptance. -/
theorem filterSchemas_eq_filter (schemas : List Schema) (d : JVal) :
    filterSchemas schemas d = schemas.filter (fun sc => isValidRet sc d freshSession) := by
  induction schemas with
  | nil => simp [filterSchemas]
  | cons sc rest ih =>
    simp only [filterSchemas, isValidRet, freshSession, List.filter_cons] at ih ⊢
    rw [ih]

/-- The boolean outcome of the `schemes.every(...)` properties loop started
from a fresh session: every declared property's value (defaulting to
`undefined`) must pass a fresh-session validation. -/
theorem everyProps_fresh_snd (obj : List (String × JVal)) (props : List (String × Schema)) :
    (everyProps obj props ⟨[], false⟩).2
      = props.all (fun kv => isValidRet kv.2 (lookupD obj kv.1 .undef) ⟨[], false⟩) := by
  induction props with
  | nil => simp [everyProps]
  | cons kv rest ih =>
    rcases kv with ⟨k, sk⟩
    simp only [everyProps]
    rcases hs : isValid sk (lookupD obj k .undef) ⟨[], false⟩ with ⟨E1, F1⟩
    dsimp only
    cases F1 with
    | true =>
      simp [isValidRet, hs]
    | false =>
      simp only [Bool.false_eq_true, if_false]
      have hP := sessionLocalP_everyProps obj rest
        (fun kv2 _ v => isValid_sessionLocal kv2.2 v)
      rw [hP E1 false]
      simp only [List.all_cons]
      rw [ih]
      simp [isValidRet, hs]

theorem everyProps_fresh_failed (obj : List (String × JVal)) (props : List (String × Schema)) :
    (everyProps obj props ⟨[], false⟩).1.failed
      = !props.all (fun kv => isValidRet kv.2 (lookupD obj kv.1 .undef) ⟨[], false⟩) := by
  induction props with
  | nil => simp [everyProps]
  | cons kv rest ih =>
    rcases kv with ⟨k, sk⟩
    simp only [everyProps]
    rcases hs : isValid sk (lookupD obj k .undef) ⟨[], false⟩ with ⟨E1, F1⟩
    dsimp only
    cases F1 with
    | true =>
      simp [isValidRet, hs]
    | false =>
      simp only [Bool.false_eq_true, if_false]
      have hP := sessionLocalP_everyProps obj rest
        (fun kv2 _ v => isValid_sessionLocal kv2.2 v)
      rw [hP E1 false]
      simp only [List.all_cons]
      rw [ih]
      simp [isValidRet, hs]

/-- A schema with no field set: `type` and every constraint are undefined,
`nullable` and `additionalProperties` are falsy. -/
def emptySchema : Schema :=
  ⟨none, false, none, none, none, none, none, none, none, none, none,
   none, none, none, none, none, none, none, none, none, false⟩

theorem isValid_none_eq (schema : Schema) (d : JVal) (s : Session)
    (hv : variantsOf schema = none) :
    isValid schema d s = dispatch schema d s := by
  simp only [isValid]
  split
  · rename_i v hv2
    rw [hv] at hv2
    cases hv2
  · rfl

theorem isValid_some_eq (schema : Schema) (d : JVal) (s : Session)
    (variants : List Schema) (hv : variantsOf schema = some variants) :
    isValid schema d s =
      (if (filterSchemas variants d).length == 0 then
        fail s (some "None schemas are valid")
      else if schema.oneOf.isSome then
        (if !((filterSchemas variants d).length == 1) then
          fail s (some "More than one shema valid for this data")
        else s)
      else s) := by
  simp only [isValid]
  split
  · rename_i v hv2
    rw [hv] at hv2
    cases hv2
    rfl
  · rename_i hv2
    rw [hv] at hv2
    cases hv2

/-- C9: the validator leaks no hidden state between `validate` calls.
Running `isValid` on any session whose failure flag is clear — in particular
on the fresh session that `new Validator()` constructs for each `validate`
call — appends exactly the error list that `validate(S, V)` computes (a
function of the schema and value alone) and returns `validate(S, V)`'s
boolean, so calling `validate(S, V)` twice yields the same boolean result and
the same error set both times. -/
theorem validate_idempotent (schema : Schema) (d : JVal) (s : Session)
    (h : s.failed = false) :
    isValid schema d s = ⟨s.errors ++ (validate schema d).2, !(validate schema d).1⟩
      ∧ isValidRet schema d s = (validate schema d).1 := by
  rcases s with ⟨e, f⟩
  simp only at h
  subst h
  have hl := isValid_sessionLocal schema d e false
  constructor
  · rw [hl]
    simp [validate, freshSession]
  · simp only [isValidRet, hl]
    simp [validate, freshSession]

theorem validate_idempotent_witness :
    (freshSession.failed = false)
      ∧ (isValid ⟨some "number", false, none, none, none, none, none, none, none,
            none, none, none, none, none, none, none, none, none, none, none, false⟩
            (.num 3) freshSession
          = ⟨freshSession.errors
              ++ (validate ⟨some "number", false, none, none, none, none, none, none,
                    none, none, none, none, none, none, none, none, none, none, none,
                    none, false⟩ (.num 3)).2,
             !(validate ⟨some "number", false, none, none, none, none, none, none,
                 none, none, none, none, none, none, none, none, none, none, none,
                 none, false⟩ (.num 3)).1⟩) :=
  ⟨rfl, (validate_idempotent _ _ freshSession rfl).1⟩

/-- C10: a non-combinator schema validated against the `undefined` value (as
opposed to `null`) fails with "Unknown type", even when `schema.nullable` is
true: `undefined !== null`, so the nullable escape is never consulted, and no
handler is registered for the undefined kind. -/
theorem undefined_unknown_type (schema : Schema) (s : Session)
    (ha : schema.anyOf = none) (ho : schema.oneOf = none) :
    isValid schema .undef s = ⟨s.errors ++ ["Unknown type"], true⟩
      ∧ isValidRet schema .undef s = false := by
  have h1 : isValid schema .undef s = dispatch schema .undef s :=
    isValid_none_eq schema .undef s (by simp [variantsOf, ha, ho])
  rcases s with ⟨e, f⟩
  simp only [isValidRet, h1]
  simp [dispatch, fail_eq]

/-- A schema with `nullable: true` and a known type, used to exercise C10. -/
def nullableNumberSchema : Schema :=
  { emptySchema with
    type := some "number"
    nullable := true }

theorem undefined_unknown_type_witness :
    nullableNumberSchema.anyOf = none ∧ nullableNumberSchema.oneOf = none
      ∧ nullableNumberSchema.nullable = true
      ∧ isValid nullableNumberSchema .undef freshSession = ⟨["Unknown type"], true⟩ :=
  ⟨rfl, rfl, rfl, by
    have := undefined_unknown_type nullableNumberSchema freshSession rfl rfl
    simpa [freshSession] using this.1⟩

/-- C6: for a non-combinator schema and a non-null value, if the declared
type is not one of the five known names, or the value's runtime kind has no
registered handler (`undefined`), validation fails with exactly the single
error "Unknown type": no per-kind constraint check runs and no other error is
recorded for that schema node. -/
theorem unknown_type_semantics (schema : Schema) (d : JVal) (s : Session)
    (ha : schema.anyOf = none) (ho : schema.oneOf = none) (hnn : d ≠ .null)
    (hk : knownType schema.type = false ∨ d = .undef) :
    isValid schema d s = ⟨s.errors ++ ["Unknown type"], true⟩
      ∧ isValidRet schema d s = false := by
  have h1 : isValid schema d s = dispatch schema d s :=
    isValid_none_eq schema d s (by simp [variantsOf, ha, ho])
  rcases s with ⟨e, f⟩
  simp only [isValidRet, h1]
  cases d with
  | null => exact absurd rfl hnn
  | undef => simp [dispatch, fail_eq]
  | num n =>
    have hk2 : knownType schema.type = false := hk.resolve_right (by simp)
    simp [dispatch, hk2, fail_eq]
  | bool b =>
    have hk2 : knownType schema.type = false := hk.resolve_right (by simp)
    simp [dispatch, hk2, fail_eq]
  | str st =>
    have hk2 : knownType schema.type = false := hk.resolve_right (by simp)
    simp [dispatch, hk2, fail_eq]
  | arr xs =>
    have hk2 : knownType schema.type = false := hk.resolve_right (by simp)
    simp [dispatch, hk2, fail_eq]
  | obj fs =>
    have hk2 : knownType schema.type = false := hk.resolve_right (by simp)
    simp [dispatch, hk2, fail_eq]

/-- A schema whose declared type is not one of the five known names. -/
def integerTypeSchema : Schema :=
  { emptySchema with type := some "integer" }

theorem unknown_type_semantics_witness :
    integerTypeSchema.anyOf = none ∧ integerTypeSchema.oneOf = none
      ∧ (JVal.num 1 ≠ JVal.null) ∧ knownType integerTypeSchema.type = false
      ∧ isValid integerTypeSchema (.num 1) freshSession = ⟨["Unknown type"], true⟩ :=
  ⟨rfl, rfl, fun hx => JVal.noConfusion hx, rfl, by
    have := unknown_type_semantics integerTypeSchema (.num 1) freshSession rfl rfl
      (fun hx => JVal.noConfusion hx) (Or.inl rfl)
    simpa [freshSession] using this.1⟩

theorem isValid_obj_eq (schema : Schema) (fs : List (String × JVal)) (s : Session)
    (ha : schema.anyOf = none) (ho : schema.oneOf = none)
    (ht : schema.type = some "object") :
    isValid schema (.obj fs) s = isValidObject schema fs s := by
  rw [isValid_none_eq _ _ _ (by simp [variantsOf, ha, ho])]
  simp [dispatch, knownType, knownTypes, ht]

/-- An object schema with only a `required` list. -/
def requiredSchema (req : List String) : Schema :=
  { emptySchema with
    type := some "object"
    required := some req }

/-- A plain string schema. -/
def strSchema : Schema := { emptySchema with type := some "string" }

/-- The spec's example schema
`{type:"object", required:["name"], properties:{name:{type:"string"}}}`. -/
def nameRequiredSchema : Schema :=
  { emptySchema with
    type := some "object"
    required := some ["name"]
    properties := some [("name", strSchema)] }

/-- C5: the `required` check succeeds iff every listed key is present on the
object with a TRUTHY value, so a present key bound to the empty string (or
`0`, `false`, `null`, `undefined`) counts as missing; in particular the
spec's example schema rejects `{name: ""}` (recording the required-field
error) and accepts `{name: "x"}`. -/
theorem required_truthiness_semantics :
    (∀ (req : List String) (fs : List (String × JVal)),
      isValidRet (requiredSchema req) (.obj fs) freshSession
        = req.all (fun k => truthy (lookupD fs k .undef)))
    ∧ isValidRet nameRequiredSchema (.obj [("name", .str "")]) freshSession = false
    ∧ isValidRet nameRequiredSchema (.obj [("name", .str "x")]) freshSession = true
    ∧ (isValid nameRequiredSchema (.obj [("name", .str "")]) freshSession).errors
        = ["Property required, but value is undefined", "Type is incorrect"] := by
  refine ⟨?_, ?_, ?_, ?_⟩
  · intro req fs
    have h1 := isValid_obj_eq (requiredSchema req) fs freshSession rfl rfl rfl
    simp only [isValidRet, h1]
    cases hp : req.all (fun k => truthy (lookupD fs k .undef)) with
    | true =>
      simp [isValidObject, requiredSchema, emptySchema,
        objectChecks, isValidType, testProperty, hp, freshSession]
    | false =>
      simp [isValidObject, requiredSchema, emptySchema,
        objectChecks, isValidType, testProperty, hp, fail_eq, fail, pushError,
        freshSession]
  · simp [isValidRet, isValid, variantsOf, nameRequiredSchema, emptySchema,
      dispatch, knownType, knownTypes, isValidObject, objectChecks, isValidType,
      testProperty, truthy, lookupD, everyProps, strSchema, isValidString,
      fail, pushError, freshSession]
  · simp [isValidRet, isValid, variantsOf, nameRequiredSchema, emptySchema,
      dispatch, knownType, knownTypes, isValidObject, objectChecks, isValidType,
      testProperty, truthy, lookupD, everyProps, strSchema, isValidString,
      fail, pushError, freshSession]
  · simp [isValidRet, isValid, variantsOf, nameRequiredSchema, emptySchema,
      dispatch, knownType, knownTypes, isValidObject, objectChecks, isValidType,
      testProperty, truthy, lookupD, everyProps, strSchema, isValidString,
      fail, pushError, freshSession]

/-- C1: combinator semantics.  For a schema whose only combinator is `anyOf`,
validation from a fresh session succeeds iff at least one branch schema
validates the value on a fresh validator, and on failure the single message
"None schemas are valid" is appended.  For a schema whose only combinator is
`oneOf`, validation succeeds iff EXACTLY one branch validates; zero matches
append "None schemas are valid" and more than one match appends "More than
one shema valid for this data" — both hard failures. -/
theorem combinator_semantics (schema : Schema) (br : List Schema) (d : JVal) :
    (schema.anyOf = some br → schema.oneOf = none →
      (isValidRet schema d freshSession = br.any (fun b => isValidRet b d freshSession))
      ∧ ((isValid schema d freshSession).errors
          = if br.any (fun b => isValidRet b d freshSession) then []
            else ["None schemas are valid"]))
    ∧ (schema.oneOf = some br → schema.anyOf = none →
      (isValidRet schema d freshSession
        = (br.countP (fun b => isValidRet b d freshSession) == 1))
      ∧ ((isValid schema d freshSession).errors
          = if br.countP (fun b => isValidRet b d freshSession) == 0 then
              ["None schemas are valid"]
            else if br.countP (fun b => isValidRet b d freshSession) == 1 then []
            else ["More than one shema valid for this data"])) := by
  constructor
  · intro ha ho
    have hv : variantsOf schema = some br := by simp [variantsOf, ha]
    have he := isValid_some_eq schema d freshSession br hv
    have hlen : ((filterSchemas br d).length == 0)
        = !(br.any (fun b => isValidRet b d freshSession)) := by
      rw [filterSchemas_eq_filter]
      cases hany : br.any (fun b => isValidRet b d freshSession) with
      | true =>
        simp only [Bool.not_true, beq_eq_false_iff_ne, ne_eq, List.length_eq_zero]
        intro hnil
        rw [List.any_eq_true] at hany
        obtain ⟨x, hx, hpx⟩ := hany
        have : x ∈ br.filter (fun sc => isValidRet sc d freshSession) :=
          List.mem_filter.mpr ⟨hx, hpx⟩
        rw [hnil] at this
        simp at this
      | false =>
        simp only [Bool.not_false, beq_iff_eq, List.length_eq_zero, List.filter_eq_nil_iff]
        intro a ha2
        rw [List.any_eq_false] at hany
        simp [hany a ha2]
    rw [isValidRet, he, hlen, ho]
    cases hany : br.any (fun b => isValidRet b d freshSession) with
    | true => simp [freshSession]
    | false => simp [fail_eq, freshSession]
  · intro ho ha
    have hv : variantsOf schema = some br := by simp [variantsOf, ha, ho]
    have he := isValid_some_eq schema d freshSession br hv
    have hcnt : (filterSchemas br d).length
        = br.countP (fun b => isValidRet b d freshSession) := by
      rw [filterSchemas_eq_filter, List.countP_eq_length_filter]
    rw [isValidRet, he, hcnt, ho]
    rcases hc : br.countP (fun b => isValidRet b d freshSession) with _ | n
    · simp [fail_eq, freshSession]
    · rcases n with _ | m
      · simp [fail_eq, freshSession]
      · simp [fail_eq, freshSession]

/-- A schema whose only combinator is `anyOf` over a single number branch. -/
def numberSchema : Schema := { emptySchema with type := some "number" }

def anyNumSchema : Schema := { emptySchema with anyOf := some [numberSchema] }

def oneNumSchema : Schema := { emptySchema with oneOf := some [numberSchema] }

theorem combinator_semantics_witness :
    anyNumSchema.anyOf = some [numberSchema] ∧ anyNumSchema.oneOf = none
      ∧ isValidRet anyNumSchema (.num 3) freshSession = true
      ∧ oneNumSchema.oneOf = some [numberSchema] ∧ oneNumSchema.anyOf = none
      ∧ isValidRet oneNumSchema (.num 3) freshSession = true := by
  refine ⟨rfl, rfl, ?_, rfl, rfl, ?_⟩
  · have h := ((combinator_semantics anyNumSchema [numberSchema] (.num 3)).1 rfl rfl).1
    rw [h]
    simp [isValidRet, isValid, variantsOf, numberSchema, emptySchema, dispatch,
      knownType, knownTypes, isValidNumber, isValidType, testProperty, freshSession]
  · have h := ((combinator_semantics oneNumSchema [numberSchema] (.num 3)).2 rfl rfl).1
    rw [h]
    simp [isValidRet, isValid, variantsOf, numberSchema, emptySchema, dispatch,
      knownType, knownTypes, isValidNumber, isValidType, testProperty, freshSession,
      List.countP, List.countP.go]

theorem fail_failed (s : Session) (w : Option String) : (fail s w).failed = true := by
  cases w <;> simp [fail]

/-- An object schema with a `properties` table and an `additionalProperties`
flag, and no other constraint. -/
def propsSchema (props : List (String × Schema)) (ap : Bool) : Schema :=
  { emptySchema with
    type := some "object"
    properties := some props
    additionalProperties := ap }

/-- C3 counterexample: the schema `{type:"object",
properties:{name:{type:"string"}}}` (no `required` at all) REJECTS the empty
object: the declared key `name` is validated even though the object lacks it
— the lookup yields `undefined`, whose validation fails with "Unknown type",
and the properties check then adds "Type is incorrect". -/
theorem absent_property_counterexample :
    isValidRet (propsSchema [("name", strSchema)] false) (.obj []) freshSession = false
      ∧ (isValid (propsSchema [("name", strSchema)] false) (.obj []) freshSession).errors
          = ["Unknown type", "Type is incorrect"] := by
  constructor <;>
    simp [isValidRet, isValid, variantsOf, propsSchema, emptySchema, strSchema,
      dispatch, knownType, knownTypes, isValidObject, objectChecks, isValidType,
      testProperty, everyProps, lookupD, fail, pushError, freshSession]

/-- C3 amended: for an object schema with a `properties` table, EVERY declared
key is validated — against the object's value when the key is present, and
against `undefined` (which fails as "Unknown type" for non-combinator
sub-schemas) when it is absent; keys of the object that are not declared are
never validated against a sub-schema.  Validation succeeds iff every declared
key's (possibly `undefined`) value passes a fresh-session validation AND
additional properties are allowed or the declared-key count equals the
object's key count.  In particular a key declared in `properties` but absent
from the object by itself makes validation fail. -/
theorem properties_validation_amended :
    (∀ (props : List (String × Schema)) (ap : Bool) (fs : List (String × JVal)),
      isValidRet (propsSchema props ap) (.obj fs) freshSession
        = (props.all (fun kv => isValidRet kv.2 (lookupD fs kv.1 .undef) freshSession)
            && (ap || (props.length == fs.length))))
    ∧ isValidRet (propsSchema [("name", strSchema)] true) (.obj []) freshSession = false := by
  constructor
  · intro props ap fs
    simp only [isValidRet]
    rw [isValid_obj_eq (propsSchema props ap) fs freshSession rfl rfl rfl]
    simp only [freshSession, isValidObject]
    have h2 := everyProps_fresh_snd fs props
    have h3 := everyProps_fresh_failed fs props
    have hoc : objectChecks (propsSchema props ap) fs ⟨[], false⟩ = ⟨[], false⟩ := by
      simp [objectChecks, propsSchema, emptySchema, isValidType, testProperty]
    have hap : (propsSchema props ap).additionalProperties = ap := rfl
    split
    · rename_i heq
      simp [propsSchema, emptySchema] at heq
    · rename_i props2 heq
      have hps : (propsSchema props ap).properties = some props := rfl
      rw [hps] at heq
      injection heq with heq2
      subst heq2
      rw [hoc, hap]
      cases hA : props.all
          (fun kv => isValidRet kv.2 (lookupD fs kv.1 .undef) ⟨[], false⟩) with
      | true =>
        rw [hA] at h2 h3
        cases hc : (ap || (props.length == fs.length)) with
        | true => simp_all [isValidRet]
        | false => simp_all [fail_failed, isValidRet]
      | false =>
        rw [hA] at h2 h3
        simp_all [fail_failed, isValidRet]
  · simp [isValidRet, isValid, variantsOf, propsSchema, emptySchema, strSchema,
      dispatch, knownType, knownTypes, isValidObject, objectChecks, isValidType,
      testProperty, everyProps, lookupD, fail, pushError, freshSession]

/-- An array schema with only a `uniqueItems` field. -/
def uniqSchema (u : Option Bool) : Schema :=
  { emptySchema with
    type := some "array"
    uniqueItems := u }

/-- C4 counterexample: with `uniqueItems: false` — present but false — the
array `[1, 1]` FAILS with the uniqueness error: `testProperty` only checks
`prop !== undefined`, and the predicate `p => this.isUniqueArray(arr)`
ignores the property's value. -/
theorem uniqueItems_false_counterexample :
    isValidRet (uniqSchema (some false)) (.arr [.num 1, .num 1]) freshSession = false
      ∧ (isValid (uniqSchema (some false)) (.arr [.num 1, .num 1]) freshSession).errors
          = ["Elements of array not unique"] := by
  constructor <;>
    simp [isValidRet, isValid, variantsOf, uniqSchema, emptySchema, dispatch,
      knownType, knownTypes, isValidArray, arrayChecks, isValidType, testProperty,
      isUniqueArray, compareValues, isObject, jsStrictEq, List.range, List.range.loop,
      fail, pushError, freshSession]

/-- C4 amended: the uniqueness constraint is enforced iff `uniqueItems` is
PRESENT (defined), regardless of its boolean value: an absent `uniqueItems`
never fails for duplicates, and a present one (true or false alike) makes
validation succeed exactly when `isUniqueArray` holds, which is the case iff
no two distinct indices hold `compareValues`-equal elements. -/
theorem uniqueItems_presence_semantics :
    (∀ xs : List JVal,
      isValidRet (uniqSchema none) (.arr xs) freshSession = true)
    ∧ (∀ (b : Bool) (xs : List JVal),
      isValidRet (uniqSchema (some b)) (.arr xs) freshSession = isUniqueArray xs)
    ∧ (∀ xs : List JVal, isUniqueArray xs = true ↔
        ∀ (i j : Nat) (hi : i < xs.length) (hj : j < xs.length), i ≠ j →
          compareValues (xs.get ⟨i, hi⟩) (xs.get ⟨j, hj⟩) = false) := by
  refine ⟨?_, ?_, ?_⟩
  · intro xs
    simp [isValidRet, isValid, variantsOf, uniqSchema, emptySchema, dispatch,
      knownType, knownTypes, isValidArray, arrayChecks, isValidType, testProperty,
      freshSession]
  · intro b xs
    cases hu : isUniqueArray xs with
    | true =>
      simp [isValidRet, isValid, variantsOf, uniqSchema, emptySchema, dispatch,
        knownType, knownTypes, isValidArray, arrayChecks, isValidType, testProperty,
        hu, freshSession]
    | false =>
      simp [isValidRet, isValid, variantsOf, uniqSchema, emptySchema, dispatch,
        knownType, knownTypes, isValidArray, arrayChecks, isValidType, testProperty,
        hu, fail, pushError, freshSession]
  · intro xs
    constructor
    · intro H i j hi hj hne
      simp only [isUniqueArray, List.all_eq_true, List.mem_range] at H
      have h1 := H i hi j hj
      have hbeq : (i == j) = false := by
        simp [hne]
      rw [hbeq] at h1
      simp only [Bool.not_false, Bool.true_and, Bool.not_eq_true'] at h1
      rw [List.getD_eq_getElem?_getD, List.getD_eq_getElem?_getD] at h1
      rw [List.getElem?_eq_getElem hi, List.getElem?_eq_getElem hj] at h1
      simpa [List.get_eq_getElem] using h1
    · intro H
      simp only [isUniqueArray, List.all_eq_true, List.mem_range]
      intro i hi j hj
      cases hbeq : (i == j) with
      | true => simp
      | false =>
        have hne : i ≠ j := by simpa using hbeq
        have h1 := H i j hi hj hne
        rw [List.getD_eq_getElem?_getD, List.getD_eq_getElem?_getD,
          List.getElem?_eq_getElem hi, List.getElem?_eq_getElem hj]
        simp only [Option.getD_some]
        simp [List.get_eq_getElem] at h1
        simp [h1]

/-- C7 counterexample: the date predicate ACCEPTS `"x1234-12-12"`, a string
that is NOT of the 4-digit/2-digit/2-digit shape (it has a leading extra
character): the source regular expression `/\d{4}-\d{2}-\d{2}$/` is anchored
only at the end, so any string with a matching 10-character suffix passes. -/
theorem date_format_counterexample :
    dateTest "x1234-12-12".data = true ∧ dateShape "x1234-12-12".data = false := by
  constructor <;> decide

/-- A string schema with `format: "date"`. -/
def dateFormatSchema : Schema :=
  { emptySchema with
    type := some "string"
    format := some Fmt.date }

theorem dateTest_iff_suffix (cs : List Char) :
    dateTest cs = true ↔ ∃ t, t <:+ cs ∧ dateShape t = true := by
  induction cs with
  | nil =>
    simp [dateTest, dateShape]
  | cons c rest ih =>
    simp only [dateTest, Bool.or_eq_true]
    constructor
    · rintro (h | h)
      · exact ⟨c :: rest, List.suffix_refl _, h⟩
      · obtain ⟨t, ht, hs⟩ := ih.mp h
        exact ⟨t, ht.trans (List.suffix_cons c rest), hs⟩
    · rintro ⟨t, ht, hs⟩
      rcases List.suffix_cons_iff.mp ht with h | h
      · left; rw [← h]; exact hs
      · right; exact ih.mpr ⟨t, h, hs⟩

/-- C7 amended: the date predicate accepts a string iff SOME suffix of it is
a full ten-character 4-digit/2-digit/2-digit hyphen-separated match (the
regular expression is end-anchored only); month and day digits are not
distinguished, so `"9999-99-99"` passes; and the `format: "date"` string
schema validates a string exactly when the predicate accepts it. -/
theorem date_format_suffix_semantics :
    (∀ s : String, dateTest s.data = true ↔ ∃ t, t <:+ s.data ∧ dateShape t = true)
    ∧ dateTest "9999-99-99".data = true
    ∧ (∀ s : String,
        isValidRet dateFormatSchema (.str s) freshSession = dateTest s.data) := by
  refine ⟨fun s => dateTest_iff_suffix s.data, by decide, ?_⟩
  intro s
  cases hd : dateTest s.data with
  | true =>
    simp [isValidRet, isValid, variantsOf, dateFormatSchema, emptySchema, dispatch,
      knownType, knownTypes, isValidString, isValidType, testProperty,
      stringPatterns, hd, freshSession]
  | false =>
    simp [isValidRet, isValid, variantsOf, dateFormatSchema, emptySchema, dispatch,
      knownType, knownTypes, isValidString, isValidType, testProperty,
      stringPatterns, hd, fail, pushError, freshSession]

/-- An array schema whose `items` is a single (typed) schema. -/
def singleItemsSchema : Schema :=
  { emptySchema with
    type := some "array"
    items := some (.inl numberSchema) }

/-- An array schema whose `items` is a keyed collection of alternatives. -/
def altsSchema (alts : List (String × Schema)) : Schema :=
  { emptySchema with
    type := some "array"
    items := some (.inr alts) }

/-- C2 counterexample: validating `[ "x" ]` against `{type:"array",
items:{type:"number"}}` leaves exactly one error, "Type is incorrect", in the
TOP-LEVEL session.  The `items` check itself appends no message (its `fail`
call has no argument), so this error was recorded by the nested item
evaluation `this.isValid(p, item)`, which runs on the PARENT's session — the
single-schema items shape is not isolated, contradicting the claim that
nested evaluations never add errors to the parent session. -/
theorem session_leak_counterexample :
    (isValid singleItemsSchema (.arr [.str "x"]) freshSession).errors
        = ["Type is incorrect"]
      ∧ isValidRet singleItemsSchema (.arr [.str "x"]) freshSession = false := by
  constructor <;>
    simp [isValidRet, isValid, variantsOf, singleItemsSchema, numberSchema,
      emptySchema, dispatch, knownType, knownTypes, isValidArray, arrayChecks,
      isValidType, testProperty, everyItems, isValidString, fail, pushError,
      freshSession]

/-- C2 amended: isolation holds for combinator branches and for the
alternatives shape of `items` (both run on fresh validators): a combinator
schema's session never receives a branch's internal errors — only the
combinator's own message, if any — and an alternatives-items array schema
records no message at all (its failure is error-less).  But the single-schema
`items` shape and the object `properties` checks run `this.isValid` on the
PARENT session, so a failing nested candidate's errors are recorded directly
in the parent (demonstrated concretely by the last two conjuncts). -/
theorem session_isolation_amended :
    (∀ (schema : Schema) (br : List Schema) (d : JVal),
      schema.anyOf = some br → schema.oneOf = none →
        (isValid schema d freshSession).errors = []
          ∨ (isValid schema d freshSession).errors = ["None schemas are valid"])
    ∧ (∀ (schema : Schema) (br : List Schema) (d : JVal),
      schema.oneOf = some br → schema.anyOf = none →
        (isValid schema d freshSession).errors = []
          ∨ (isValid schema d freshSession).errors = ["None schemas are valid"]
          ∨ (isValid schema d freshSession).errors
              = ["More than one shema valid for this data"])
    ∧ (∀ (alts : List (String × Schema)) (xs : List JVal),
        (isValid (altsSchema alts) (.arr xs) freshSession).errors = [])
    ∧ ((isValid singleItemsSchema (.arr [.str "x"]) freshSession).errors
        = ["Type is incorrect"])
    ∧ ((isValid (propsSchema [("a", numberSchema)] true)
          (.obj [("a", .str "x")]) freshSession).errors
        = ["Type is incorrect", "Type is incorrect"]) := by
  refine ⟨?_, ?_, ?_, ?_, ?_⟩
  · intro schema br d ha ho
    have hv : variantsOf schema = some br := by simp [variantsOf, ha]
    rw [isValid_some_eq schema d freshSession br hv]
    cases hc : (filterSchemas br d).length == 0 with
    | true => right; simp [hc, fail, pushError, freshSession]
    | false => left; simp [hc, ho, freshSession]
  · intro schema br d ho ha
    have hv : variantsOf schema = some br := by simp [variantsOf, ha, ho]
    rw [isValid_some_eq schema d freshSession br hv]
    cases hc : (filterSchemas br d).length == 0 with
    | true =>
      right; left; simp [hc, fail, pushError, freshSession]
    | false =>
      cases hc1 : (filterSchemas br d).length == 1 with
      | true => left; simp [hc, hc1, ho, freshSession]
      | false =>
        right; right; simp [hc, hc1, ho, fail, pushError, freshSession]
  · intro alts xs
    rw [isValid_none_eq _ _ _ (by simp [variantsOf, altsSchema, emptySchema])]
    cases he : everyAltItems alts xs with
    | true =>
      simp [dispatch, knownType, knownTypes, altsSchema, emptySchema, isValidArray,
        arrayChecks, isValidType, testProperty, he, freshSession]
    | false =>
      simp [dispatch, knownType, knownTypes, altsSchema, emptySchema, isValidArray,
        arrayChecks, isValidType, testProperty, he, fail, freshSession]
  · simp [isValid, variantsOf, singleItemsSchema, numberSchema,
      emptySchema, dispatch, knownType, knownTypes, isValidArray, arrayChecks,
      isValidType, testProperty, everyItems, isValidString, fail, pushError,
      freshSession]
  · simp [isValid, variantsOf, propsSchema, numberSchema, emptySchema, dispatch,
      knownType, knownTypes, isValidObject, objectChecks, isValidType,
      testProperty, everyProps, lookupD, isValidString, fail, pushError,
      freshSession]

theorem session_isolation_amended_witness :
    anyNumSchema.anyOf = some [numberSchema] ∧ anyNumSchema.oneOf = none
      ∧ ((isValid anyNumSchema (.num 3) freshSession).errors = []
          ∨ (isValid anyNumSchema (.num 3) freshSession).errors
              = ["None schemas are valid"]) :=
  ⟨rfl, rfl, (session_isolation_amended.1 anyNumSchema [numberSchema] (.num 3)) rfl rfl⟩

/-! ## Structural equality versus the specification (C8) -/

/-- A primitive in the sense of spec section 4.5: number, boolean, or
string. -/
def isPrim : JVal → Bool
  | .num _ => true
  | .bool _ => true
  | .str _ => true
  | _ => false

mutual

/-- Written from the spec's words (section 4.5), for comparison against the
source's `compareValues`: two values are equal iff both are non-null
objects/arrays with the same number of own keys and every key's value
recursively equal by the same rule, OR both are primitives
(number/boolean/string) identical by strict equality. -/
def specEqual (a b : JVal) : Bool :=
  if isObject a && isObject b then
    (toKeyed a).length == (toKeyed b).length && specLoop a b ((toKeyed a).map Prod.fst)
  else
    isPrim a && isPrim b && jsStrictEq a b
termination_by (sizeOf a + sizeOf b, (toKeyed a).length + 1)

/-- The per-key walk of `specEqual`, with one unfolding of the "same rule"
inlined for the non-object case so that the recursion stays on objects. -/
def specLoop (a b : JVal) : List String → Bool
  | [] => true
  | k :: rest =>
    let aVal := lookupD (toKeyed a) k .undef
    let bVal := lookupD (toKeyed b) k .undef
    (if h : isObject aVal && isObject bVal then specEqual aVal bVal
     else isPrim aVal && isPrim bVal && jsStrictEq aVal bVal)
      && specLoop a b rest
termination_by keys => (sizeOf a + sizeOf b, keys.length)
decreasing_by
  · simp only [Bool.and_eq_true] at h
    have ha := sizeOf_lookupD_lt a k h.1
    have hb := sizeOf_lookupD_lt b k h.2
    simp_wf
    omega
  · simp_wf
    exact Prod.Lex.right _ (by omega)

end

/-- Key lists with pairwise-distinct entries, decided with `==`. -/
def nodupKeys : List String → Bool
  | [] => true
  | k :: ks => !(ks.contains k) && nodupKeys ks

mutual

/-- The values for which the spec's description of structural equality is
meaningful and matches the code: built only from numbers, booleans, strings,
arrays and objects (no `null` or `undefined` anywhere), with distinct own
keys at every object/array node (`Object.keys` of a real JavaScript value
never repeats a key; for arrays this also records that distinct indices
stringify to distinct keys, which holds for decimal index strings). -/
def regular : JVal → Bool
  | .num _ => true
  | .bool _ => true
  | .str _ => true
  | .null => false
  | .undef => false
  | .arr xs => nodupKeys ((toKeyed (.arr xs)).map Prod.fst) && regularList xs
  | .obj fs => nodupKeys ((toKeyed (.obj fs)).map Prod.fst) && regularPairs fs

def regularList : List JVal → Bool
  | [] => true
  | x :: rest => regular x && regularList rest

def regularPairs : List (String × JVal) → Bool
  | [] => true
  | p :: rest => regular p.2 && regularPairs rest

end

theorem regularList_mem {xs : List JVal} {x : JVal}
    (h : regularList xs = true) (hm : x ∈ xs) : regular x = true := by
  induction xs with
  | nil => simp at hm
  | cons y rest ih =>
    simp only [regularList, Bool.and_eq_true] at h
    rcases List.mem_cons.mp hm with h1 | h1
    · rw [h1]; exact h.1
    · exact ih h.2 h1

theorem regularPairs_mem {fs : List (String × JVal)} {p : String × JVal}
    (h : regularPairs fs = true) (hm : p ∈ fs) : regular p.2 = true := by
  induction fs with
  | nil => simp at hm
  | cons q rest ih =>
    simp only [regularPairs, Bool.and_eq_true] at h
    rcases List.mem_cons.mp hm with h1 | h1
    · rw [h1]; exact h.1
    · exact ih h.2 h1

theorem regular_toKeyed_mem {a : JVal} {p : String × JVal}
    (h : regular a = true) (hp : p ∈ toKeyed a) : regular p.2 = true := by
  cases a with
  | arr xs =>
    simp only [regular, Bool.and_eq_true] at h
    simp only [toKeyed, List.mem_map] at hp
    obtain ⟨q, hq, hpq⟩ := hp
    have hmem : q.2 ∈ xs := by
      have h2 := List.mem_enum_iff_getElem?.mp hq
      exact List.getElem?_mem h2
    have hr := regularList_mem h.2 hmem
    have h4 : p.2 = q.2 := by rw [← hpq]
    rw [h4]
    exact hr
  | obj fs =>
    simp only [regular, Bool.and_eq_true] at h
    exact regularPairs_mem h.2 hp
  | num n => simp [toKeyed] at hp
  | bool b => simp [toKeyed] at hp
  | str s => simp [toKeyed] at hp
  | null => simp [regular] at h
  | undef => simp [regular] at h

theorem regular_nodupKeys {a : JVal} (h : regular a = true) :
    nodupKeys ((toKeyed a).map Prod.fst) = true := by
  cases a with
  | arr xs => simp only [regular, Bool.and_eq_true] at h; exact h.1
  | obj fs => simp only [regular, Bool.and_eq_true] at h; exact h.1
  | num n => rfl
  | bool b => rfl
  | str s => rfl
  | null => simp [regular] at h
  | undef => simp [regular] at h

theorem contains_iff_mem (l : List String) (k : String) :
    l.contains k = true ↔ k ∈ l := by
  rw [List.contains_iff_exists_mem_beq]
  simp

theorem nodupKeys_iff (l : List String) : nodupKeys l = true ↔ l.Nodup := by
  induction l with
  | nil => simp [nodupKeys]
  | cons k ks ih =>
    simp only [nodupKeys, Bool.and_eq_true, List.nodup_cons, ih, Bool.not_eq_true']
    constructor
    · rintro ⟨h1, h2⟩
      refine ⟨fun hm => ?_, h2⟩
      rw [(contains_iff_mem ks k).mpr hm] at h1
      cases h1
    · rintro ⟨h1, h2⟩
      refine ⟨?_, h2⟩
      cases hc : ks.contains k
      · rfl
      · exact absurd ((contains_iff_mem ks k).mp hc) h1

theorem lookupD_of_mem_keys (l : List (String × JVal)) (k : String)
    (h : k ∈ l.map Prod.fst) :
    ∃ p ∈ l, p.1 = k ∧ lookupD l k .undef = p.2 := by
  induction l with
  | nil => simp at h
  | cons q rest ih =>
    by_cases hq : q.1 = k
    · refine ⟨q, by simp, hq, ?_⟩
      simp only [lookupD]
      rw [List.find?_cons_of_pos _ (by simp [hq])]
    · have h2 : k ∈ rest.map Prod.fst := by
        simp only [List.map_cons, List.mem_cons] at h
        exact h.resolve_left (fun he => hq he.symm)
      obtain ⟨p, hp, h1, h3⟩ := ih h2
      refine ⟨p, by simp [hp], h1, ?_⟩
      simp only [lookupD] at h3 ⊢
      rw [List.find?_cons_of_neg _ (by simp [hq])]
      exact h3

theorem lookupD_of_not_mem_keys (l : List (String × JVal)) (k : String)
    (h : k ∉ l.map Prod.fst) (d : JVal) : lookupD l k d = d := by
  induction l with
  | nil => simp [lookupD, List.find?]
  | cons q rest ih =>
    have hq : ¬(q.1 = k) := fun he => h (by simp [he])
    have h2 : k ∉ rest.map Prod.fst := fun he => h (by simp [he])
    simp only [lookupD] at ih ⊢
    rw [List.find?_cons_of_neg _ (by simp [hq])]
    exact ih h2

theorem jsStrictEq_comm (a b : JVal) : jsStrictEq a b = jsStrictEq b a := by
  cases a <;> cases b <;> simp [jsStrictEq] <;> exact eq_comm

theorem jsStrictEq_undef_right {a : JVal} (h : jsStrictEq a .undef = true) :
    a = .undef := by
  cases a <;> simp [jsStrictEq] at h ⊢

theorem sizeOf_jval_pos (a : JVal) : 0 < sizeOf a := by
  cases a <;> simp_arith

/-- One iteration of `compareValues`' key loop, as a function of the key. -/
def cmpStep (a b : JVal) (k : String) : Bool :=
  if isObject (lookupD (toKeyed a) k .undef)
      && isObject (lookupD (toKeyed b) k .undef) then
    compareValues (lookupD (toKeyed a) k .undef) (lookupD (toKeyed b) k .undef)
  else
    jsStrictEq (lookupD (toKeyed a) k .undef) (lookupD (toKeyed b) k .undef)

/-- One iteration of `specLoop`, as a function of the key. -/
def specStep (a b : JVal) (k : String) : Bool :=
  if isObject (lookupD (toKeyed a) k .undef)
      && isObject (lookupD (toKeyed b) k .undef) then
    specEqual (lookupD (toKeyed a) k .undef) (lookupD (toKeyed b) k .undef)
  else
    isPrim (lookupD (toKeyed a) k .undef) && isPrim (lookupD (toKeyed b) k .undef)
      && jsStrictEq (lookupD (toKeyed a) k .undef) (lookupD (toKeyed b) k .undef)

theorem cmpKeys_eq_all (a b : JVal) (keys : List String) :
    cmpKeys a b keys = keys.all (cmpStep a b) := by
  induction keys with
  | nil => simp [cmpKeys]
  | cons k rest ih =>
    simp only [cmpKeys, List.all_cons, ih, cmpStep]
    rw [dite_eq_ite]

theorem specLoop_eq_all (a b : JVal) (keys : List String) :
    specLoop a b keys = keys.all (specStep a b) := by
  induction keys with
  | nil => simp [specLoop]
  | cons k rest ih =>
    simp only [specLoop, List.all_cons, ih, specStep]
    rw [dite_eq_ite]

theorem compareValues_obj_eq (a b : JVal) (hA : isObject a = true)
    (hB : isObject b = true) :
    compareValues a b
      = (((toKeyed a).length == (toKeyed b).length)
          && ((toKeyed a).map Prod.fst).all (cmpStep a b)) := by
  rw [compareValues]
  rw [if_pos (by simp [hA, hB])]
  rw [cmpKeys_eq_all]

theorem specEqual_obj_eq (a b : JVal) (hA : isObject a = true)
    (hB : isObject b = true) :
    specEqual a b
      = (((toKeyed a).length == (toKeyed b).length)
          && ((toKeyed a).map Prod.fst).all (specStep a b)) := by
  rw [specEqual]
  rw [if_pos (by simp [hA, hB])]
  rw [specLoop_eq_all]

theorem compareValues_nonobj_eq (a b : JVal)
    (h : (isObject a && isObject b) = false) :
    compareValues a b = jsStrictEq a b := by
  rw [compareValues]
  rw [if_neg (by simp [h])]

theorem specEqual_nonobj_eq (a b : JVal)
    (h : (isObject a && isObject b) = false) :
    specEqual a b = (isPrim a && isPrim b && jsStrictEq a b) := by
  rw [specEqual]
  rw [if_neg (by simp [h])]

theorem list_all_congr {α : Type} (l : List α) (f g : α → Bool)
    (h : ∀ x ∈ l, f x = g x) : l.all f = l.all g := by
  induction l with
  | nil => simp
  | cons x rest ih =>
    simp only [List.all_cons]
    rw [h x (by simp), ih (fun y hy => h y (by simp [hy]))]

theorem step_nonobj_agree {x y : JVal} (hx : regular x = true) (hy : regular y = true)
    (hio : ¬((isObject x && isObject y) = true)) :
    jsStrictEq x y = (isPrim x && isPrim y && jsStrictEq x y) := by
  cases x <;> cases y <;> simp_all [jsStrictEq, isPrim, isObject, regular]

theorem cmp_spec_symm_aux : ∀ (n : Nat) (a b : JVal), sizeOf a + sizeOf b ≤ n →
    regular a = true → regular b = true →
    (compareValues a b = specEqual a b)
      ∧ (compareValues a b = true → compareValues b a = true) := by
  intro n
  induction n with
  | zero =>
    intro a b hsz
    exfalso
    have h1 := sizeOf_jval_pos a
    have h2 := sizeOf_jval_pos b
    omega
  | succ n ih =>
    intro a b hsz ha hb
    by_cases hobj : isObject a = true ∧ isObject b = true
    · obtain ⟨hA, hB⟩ := hobj
      constructor
      · rw [compareValues_obj_eq a b hA hB, specEqual_obj_eq a b hA hB]
        congr 1
        apply list_all_congr
        intro k hk
        obtain ⟨p, hp, hpk, hpl⟩ := lookupD_of_mem_keys (toKeyed a) k hk
        have hra : regular (lookupD (toKeyed a) k .undef) = true := by
          rw [hpl]; exact regular_toKeyed_mem ha hp
        by_cases hkb : k ∈ (toKeyed b).map Prod.fst
        · obtain ⟨q, hq, hqk, hql⟩ := lookupD_of_mem_keys (toKeyed b) k hkb
          have hrb : regular (lookupD (toKeyed b) k .undef) = true := by
            rw [hql]; exact regular_toKeyed_mem hb hq
          simp only [cmpStep, specStep]
          by_cases hio : (isObject (lookupD (toKeyed a) k .undef)
              && isObject (lookupD (toKeyed b) k .undef)) = true
          · rw [if_pos hio, if_pos hio]
            simp only [Bool.and_eq_true] at hio
            have hsa : sizeOf (lookupD (toKeyed a) k .undef) < sizeOf a :=
              sizeOf_lookupD_lt a k hio.1
            have hsb : sizeOf (lookupD (toKeyed b) k .undef) < sizeOf b :=
              sizeOf_lookupD_lt b k hio.2
            exact (ih _ _ (by omega) hra hrb).1
          · rw [if_neg hio, if_neg hio]
            exact step_nonobj_agree hra hrb hio
        · have hbl : lookupD (toKeyed b) k .undef = .undef :=
            lookupD_of_not_mem_keys (toKeyed b) k hkb .undef
          simp only [cmpStep, specStep, hbl]
          rw [if_neg (by simp [isObject]), if_neg (by simp [isObject])]
          have hne : lookupD (toKeyed a) k .undef ≠ .undef := by
            intro he
            rw [he] at hra
            simp [regular] at hra
          have hje : jsStrictEq (lookupD (toKeyed a) k .undef) .undef = false := by
            cases hj : jsStrictEq (lookupD (toKeyed a) k .undef) .undef
            · rfl
            · exact absurd (jsStrictEq_undef_right hj) hne
          simp [hje, isPrim]
      · intro hT
        rw [compareValues_obj_eq a b hA hB] at hT
        simp only [Bool.and_eq_true, List.all_eq_true] at hT
        obtain ⟨hlen, hall⟩ := hT
        have hsub : ∀ k ∈ (toKeyed a).map Prod.fst, k ∈ (toKeyed b).map Prod.fst := by
          intro k hk
          by_contra hkb
          have hbl := lookupD_of_not_mem_keys (toKeyed b) k hkb .undef
          have hstep := hall k hk
          simp only [cmpStep, hbl] at hstep
          rw [if_neg (by simp [isObject])] at hstep
          obtain ⟨p, hp, hpk, hpl⟩ := lookupD_of_mem_keys (toKeyed a) k hk
          have hra : regular (lookupD (toKeyed a) k .undef) = true := by
            rw [hpl]; exact regular_toKeyed_mem ha hp
          have hu := jsStrictEq_undef_right hstep
          rw [hu] at hra
          simp [regular] at hra
        have hndA := (nodupKeys_iff _).mp (regular_nodupKeys ha)
        have hndB := (nodupKeys_iff _).mp (regular_nodupKeys hb)
        have hlene : (toKeyed a).length = (toKeyed b).length := by
          simpa using hlen
        have hfs : ((toKeyed a).map Prod.fst).toFinset
            = ((toKeyed b).map Prod.fst).toFinset := by
          apply Finset.eq_of_subset_of_card_le
          · intro x hx
            rw [List.mem_toFinset] at hx ⊢
            exact hsub x hx
          · rw [List.toFinset_card_of_nodup hndA, List.toFinset_card_of_nodup hndB]
            simp [hlene]
        have hsub2 : ∀ k ∈ (toKeyed b).map Prod.fst, k ∈ (toKeyed a).map Prod.fst := by
          intro k hk
          have hx : k ∈ ((toKeyed b).map Prod.fst).toFinset := List.mem_toFinset.mpr hk
          rw [← hfs] at hx
          exact List.mem_toFinset.mp hx
        rw [compareValues_obj_eq b a hB hA]
        simp only [Bool.and_eq_true, List.all_eq_true]
        constructor
        · simp [hlene]
        · intro k hk
          have hka : k ∈ (toKeyed a).map Prod.fst := hsub2 k hk
          have hstep := hall k hka
          obtain ⟨p, hp, hpk, hpl⟩ := lookupD_of_mem_keys (toKeyed a) k hka
          obtain ⟨q, hq, hqk, hql⟩ := lookupD_of_mem_keys (toKeyed b) k hk
          have hra : regular (lookupD (toKeyed a) k .undef) = true := by
            rw [hpl]; exact regular_toKeyed_mem ha hp
          have hrb : regular (lookupD (toKeyed b) k .undef) = true := by
            rw [hql]; exact regular_toKeyed_mem hb hq
          simp only [cmpStep] at hstep ⊢
          by_cases hio : (isObject (lookupD (toKeyed a) k .undef)
              && isObject (lookupD (toKeyed b) k .undef)) = true
          · rw [if_pos hio] at hstep
            rw [if_pos (by
              simp only [Bool.and_eq_true] at hio ⊢
              exact ⟨hio.2, hio.1⟩)]
            simp only [Bool.and_eq_true] at hio
            have hsa := sizeOf_lookupD_lt a k hio.1
            have hsb := sizeOf_lookupD_lt b k hio.2
            exact (ih _ _ (by omega) hra hrb).2 hstep
          · rw [if_neg hio] at hstep
            rw [if_neg (by
              intro hio2
              apply hio
              simp only [Bool.and_eq_true] at hio2 ⊢
              exact ⟨hio2.2, hio2.1⟩)]
            rw [jsStrictEq_comm]
            exact hstep
    · have hcond : (isObject a && isObject b) = false := by
        cases hA : isObject a <;> cases hB : isObject b <;> simp_all
      constructor
      · rw [compareValues_nonobj_eq a b hcond, specEqual_nonobj_eq a b hcond]
        exact step_nonobj_agree ha hb (by simp [hcond])
      · intro hT
        rw [compareValues_nonobj_eq a b hcond] at hT
        have hcond2 : (isObject b && isObject a) = false := by
          cases hA : isObject a <;> cases hB : isObject b <;> simp_all
        rw [compareValues_nonobj_eq b a hcond2, jsStrictEq_comm]
        exact hT

/-- C8 counterexample: `compareValues` is NOT symmetric, and does not match
the spec's characterization, on objects with `undefined`-valued keys:
`{k: undefined}` compares equal to `{j: 1}` (the key counts agree, and the
walk over the FIRST argument's keys compares `undefined` with the missing
`b["k"]`, i.e. `undefined === undefined`), but the reversed comparison and
the spec's predicate both say "not equal". -/
theorem compareValues_asymmetry_counterexample :
    compareValues (.obj [("k", .undef)]) (.obj [("j", .num 1)]) = true
      ∧ compareValues (.obj [("j", .num 1)]) (.obj [("k", .undef)]) = false
      ∧ specEqual (.obj [("k", .undef)]) (.obj [("j", .num 1)]) = false := by
  refine ⟨?_, ?_, ?_⟩ <;>
    simp [compareValues, cmpKeys, specEqual, specLoop, toKeyed, lookupD, isObject,
      jsStrictEq, isPrim, List.find?]

/-- C8 amended: restricted to `regular` values — values built only from
numbers, booleans, strings, arrays and objects (no `null` or `undefined`
anywhere) whose object nodes have pairwise-distinct keys, which covers every
value a real JavaScript program can build without `null`/`undefined`
members — `compareValues` coincides with the spec's characterization of
structural equality (`specEqual`) and is symmetric. -/
theorem compareValues_regular_semantics (a b : JVal)
    (ha : regular a = true) (hb : regular b = true) :
    compareValues a b = specEqual a b ∧ compareValues a b = compareValues b a := by
  have h1 := cmp_spec_symm_aux (sizeOf a + sizeOf b) a b (le_refl _) ha hb
  have h2 := cmp_spec_symm_aux (sizeOf b + sizeOf a) b a (le_refl _) hb ha
  refine ⟨h1.1, ?_⟩
  cases hc : compareValues a b with
  | true => exact (h1.2 hc).symm
  | false =>
    cases hc2 : compareValues b a with
    | false => rfl
    | true =>
      have hx := h2.2 hc2
      rw [hx] at hc
      cases hc

theorem compareValues_regular_semantics_witness :
    regular (JVal.obj [("a", .num 1), ("b", .str "x")]) = true
      ∧ (compareValues (.obj [("a", .num 1), ("b", .str "x")])
            (.obj [("a", .num 1), ("b", .str "x")])
          = specEqual (.obj [("a", .num 1), ("b", .str "x")])
              (.obj [("a", .num 1), ("b", .str "x")])
        ∧ compareValues (.obj [("a", .num 1), ("b", .str "x")])
            (.obj [("a", .num 1), ("b", .str "x")])
          = compareValues (.obj [("a", .num 1), ("b", .str "x")])
              (.obj [("a", .num 1), ("b", .str "x")])) :=
  ⟨by simp [regular, regularPairs, nodupKeys, toKeyed, List.contains],
   compareValues_regular_semantics _ _
     (by simp [regular, regularPairs, nodupKeys, toKeyed, List.contains])
     (by simp [regular, regularPairs, nodupKeys, toKeyed, List.contains])⟩
